import Mathlib

/-!
Verification of the disk-backed, expiry- and ETag-aware content cache
(`CacheManager` in `src/api/cache.rs`).

The filesystem state is modelled as the cache-root directory: an
association list from file names to byte contents (`Dir`).  Bytes are
`Nat`s below 256.  A Rust `String` (the ETag type) is modelled by its
UTF-8 byte representation, a `List Nat` that satisfies `isValidUtf8`;
`String::from_utf8` is then the identity on valid byte lists and
failure otherwise.  `std::time::Duration` is modelled by a pair of
seconds and nanoseconds with the lexicographic order.  Operations that
may panic in Rust (the out-of-bounds slice in `read_expiry_file`)
return the `Outcome.panic` constructor.
-/

set_option autoImplicit false

/-- A point in time / duration: seconds and nanoseconds since the epoch,
modelling `std::time::Duration`. -/
structure Duration where
  secs : Nat
  nanos : Nat
  deriving DecidableEq, Repr

/-- Strict comparison of durations, `a < b` (lexicographic on seconds then
nanoseconds), modelling `core::time::Duration`'s `Ord`. -/
def durLt (a b : Duration) : Bool :=
  a.secs < b.secs || (a.secs = b.secs && a.nanos < b.nanos)

/-- The byte representation of a Rust `String` used as a revalidation token
(`pub type ETag = String`). -/
abbrev ETag := List Nat

/-- Is `b` in the range of UTF-8 continuation bytes `0x80..=0xBF`? -/
def isCont (b : Nat) : Bool := 128 ≤ b && b ≤ 191

/-- UTF-8 validity of a byte sequence (RFC 3629, the check performed by
`String::from_utf8`). -/
def isValidUtf8 : List Nat → Bool
  | [] => true
  | b :: rest =>
    if b ≤ 127 then isValidUtf8 rest
    else if 194 ≤ b && b ≤ 223 then
      match rest with
      | c1 :: rest2 => isCont c1 && isValidUtf8 rest2
      | [] => false
    else if b = 224 then
      match rest with
      | c1 :: c2 :: rest2 => (160 ≤ c1 && c1 ≤ 191) && isCont c2 && isValidUtf8 rest2
      | _ => false
    else if 225 ≤ b && b ≤ 236 then
      match rest with
      | c1 :: c2 :: rest2 => isCont c1 && isCont c2 && isValidUtf8 rest2
      | _ => false
    else if b = 237 then
      match rest with
      | c1 :: c2 :: rest2 => (128 ≤ c1 && c1 ≤ 159) && isCont c2 && isValidUtf8 rest2
      | _ => false
    else if 238 ≤ b && b ≤ 239 then
      match rest with
      | c1 :: c2 :: rest2 => isCont c1 && isCont c2 && isValidUtf8 rest2
      | _ => false
    else if b = 240 then
      match rest with
      | c1 :: c2 :: c3 :: rest2 =>
          (144 ≤ c1 && c1 ≤ 191) && isCont c2 && isCont c3 && isValidUtf8 rest2
      | _ => false
    else if 241 ≤ b && b ≤ 243 then
      match rest with
      | c1 :: c2 :: c3 :: rest2 => isCont c1 && isCont c2 && isCont c3 && isValidUtf8 rest2
      | _ => false
    else if b = 244 then
      match rest with
      | c1 :: c2 :: c3 :: rest2 =>
          (128 ≤ c1 && c1 ≤ 143) && isCont c2 && isCont c3 && isValidUtf8 rest2
      | _ => false
    else false

/-- `String::from_utf8(bytes).ok()`: the byte list itself when it is valid
UTF-8, otherwise `none`. -/
def fromUtf8Opt (b : List Nat) : Option ETag :=
  if isValidUtf8 b then some b else none

/-- The error type of the cache (`CacheError`); the `std::io::Error` /
`FromUtf8Error` payloads are dropped. -/
inductive CacheError where
  | NoContent
  | WriteError
  | ReadError
  | RemoveError
  | ConversionError
  deriving DecidableEq, Repr

/-- Result of a cache read (`CacheFile`). -/
inductive CacheFile where
  | Fresh (buf : List Nat)
  | Expired (buf : List Nat) (etag : Option ETag)
  | None
  deriving DecidableEq, Repr

/-- The four cache policies (`CachePolicy`). -/
inductive CachePolicy where
  | Default
  | IgnoreExpiry
  | Revalidate
  | IgnoreCached
  deriving DecidableEq, Repr

/-- Expiry metadata (`CacheExpiry`). -/
inductive CacheExpiry where
  | Never
  | AtUnixTimestamp (d : Duration) (etag : Option ETag)
  deriving DecidableEq, Repr

/-- What a fetch callback reports (`FetchResult`). -/
inductive FetchResult where
  | NotModified (expiry : CacheExpiry)
  | Modified (fresh : List Nat) (expiry : CacheExpiry)
  deriving DecidableEq, Repr

/-- `CacheExpiry::expire_in_seconds(seconds, etag)`: the current timestamp
plus `Duration::new(seconds, 0)`. -/
def CacheExpiry.expire_in_seconds (now : Duration) (seconds : Nat) (etag : Option ETag) :
    CacheExpiry :=
  CacheExpiry.AtUnixTimestamp ⟨now.secs + seconds, now.nanos⟩ etag

/-- `CacheExpiry::is_expired()`: `Never` is never expired; a timestamp is
expired when `now` is strictly greater. -/
def CacheExpiry.is_expired (e : CacheExpiry) (now : Duration) : Bool :=
  match e with
  | CacheExpiry.Never => false
  | CacheExpiry.AtUnixTimestamp d _ => durLt d now

/-- `CacheExpiry::etag()`. -/
def CacheExpiry.etag : CacheExpiry → Option ETag
  | CacheExpiry.Never => none
  | CacheExpiry.AtUnixTimestamp _ t => t

/-- The result of running a cache operation: a value, a typed error, or a
Rust panic. -/
inductive Outcome (ε : Type) (α : Type) where
  | panic
  | err (e : ε)
  | ok (a : α)
  deriving DecidableEq, Repr

/-- The cache-root directory: file names with their byte contents, in
directory order. -/
abbrev Dir := List (String × List Nat)

/-- Read a file from the directory (`fs::read`): `some` contents, or `none`
when the file is absent (`ErrorKind::NotFound`). -/
def fsRead : Dir → String → Option (List Nat)
  | [], _ => none
  | (k, v) :: rest, name => if k = name then some v else fsRead rest name

/-- Write a file (`fs::write`): overwrite in place, or create. -/
def fsWrite : Dir → String → List Nat → Dir
  | [], name, b => [(name, b)]
  | (k, v) :: rest, name, b =>
    if k = name then (name, b) :: rest else (k, v) :: fsWrite rest name b

/-- Remove a file (`fs::remove_file`), a no-op when absent. -/
def fsRemove : Dir → String → Dir
  | [], _ => []
  | (k, v) :: rest, name =>
    if k = name then fsRemove rest name else (k, v) :: fsRemove rest name

/-- The names enumerated by `fs::read_dir` on the cache root. -/
def dirNames (fs : Dir) : List String := fs.map Prod.fst

/-- `EXPIRY_FILE_EXT`. -/
def expiryFileExt : String := ".expiry"

/-- `cache_meta_path`: the metadata file name for a resource, the resource
name with `.expiry` appended. -/
def metaName (resource : String) : String := resource ++ expiryFileExt

/-- `str::strip_suffix`: the string minus `suf`, when it ends with `suf`. -/
def dropSuffixOf (s suf : String) : Option String :=
  let rs := s.data.reverse
  let rsuf := suf.data.reverse
  if rs.take rsuf.length = rsuf then some (String.mk ((rs.drop rsuf.length).reverse)) else none

/-- Big-endian encoding of a 64-bit value (`u64::to_be_bytes`). -/
def beBytes8 (n : Nat) : List Nat :=
  [n / 256 ^ 7 % 256, n / 256 ^ 6 % 256, n / 256 ^ 5 % 256, n / 256 ^ 4 % 256,
   n / 256 ^ 3 % 256, n / 256 ^ 2 % 256, n / 256 % 256, n % 256]

/-- Big-endian decoding (`u64::from_be_bytes`). -/
def fromBE8 (bs : List Nat) : Nat :=
  bs.foldl (fun acc b => acc * 256 + b) 0

/-- Decoding of the body of a metadata file inside `read_expiry_file`:
slicing `buffer[..8]` panics when the buffer is shorter than 8 bytes;
otherwise the first 8 bytes are the big-endian seconds and the remainder is
the token, `String::from_utf8(...).ok()`. -/
def decodeExpiry (b : List Nat) : Outcome CacheError CacheExpiry :=
  if b.length < 8 then Outcome.panic
  else Outcome.ok (CacheExpiry.AtUnixTimestamp ⟨fromBE8 (b.take 8), 0⟩ (fromUtf8Opt (b.drop 8)))

/-- `CacheManager::read_expiry_file`: an absent metadata file is `Never`;
a present one is decoded by `decodeExpiry`. -/
def read_expiry_file (fs : Dir) (resource : String) : Outcome CacheError CacheExpiry :=
  match fsRead fs (metaName resource) with
  | none => Outcome.ok CacheExpiry.Never
  | some b => decodeExpiry b

/-- `CacheManager::read_cache_file`: short-circuits on `IgnoreCached`, then
reads content and metadata concurrently (a panic in the metadata decode
propagates regardless of policy) and classifies the result. -/
def read_cache_file (fs : Dir) (now : Duration) (resource : String) (policy : CachePolicy) :
    Outcome CacheError CacheFile :=
  if policy = CachePolicy.IgnoreCached then Outcome.ok CacheFile.None
  else
    match read_expiry_file fs resource, fsRead fs resource, policy with
    | Outcome.panic, _, _ => Outcome.panic
    | _, some buf, CachePolicy.IgnoreExpiry => Outcome.ok (CacheFile.Fresh buf)
    | eo, some buf, CachePolicy.Revalidate =>
        let expiry := match eo with | Outcome.ok e => e | _ => CacheExpiry.Never
        Outcome.ok (CacheFile.Expired buf expiry.etag)
    | Outcome.err e, some _, CachePolicy.Default => Outcome.err e
    | Outcome.ok expiry, some buf, CachePolicy.Default =>
        if expiry.is_expired now then Outcome.ok (CacheFile.Expired buf expiry.etag)
        else Outcome.ok (CacheFile.Fresh buf)
    | _, some _, CachePolicy.IgnoreCached => Outcome.ok CacheFile.None
    | _, none, _ => Outcome.ok CacheFile.None

/-- The expiry stored for a resource, as decoded by a read (`Never` when
no metadata decodes). -/
def decodedExpiry (fs : Dir) (resource : String) : CacheExpiry :=
  match read_expiry_file fs resource with
  | Outcome.ok e => e
  | _ => CacheExpiry.Never

/-- `CacheManager::set_expiry_for_path`: for `AtUnixTimestamp`, write the
big-endian seconds followed by the token bytes when a token is present; for
`Never`, write nothing at all. -/
def set_expiry_for_path (fs : Dir) (path : String) (expiry : CacheExpiry) : Dir :=
  match expiry with
  | CacheExpiry.Never => fs
  | CacheExpiry.AtUnixTimestamp d etag =>
    fsWrite fs path (beBytes8 d.secs ++ (match etag with | some t => t | none => []))

/-- `CacheManager::write_cache_file`: write the content file and (via
`set_expiry_for_path`) the metadata file; the two target distinct names, so
the concurrent join is modelled by sequencing. -/
def write_cache_file (fs : Dir) (resource : String) (content : List Nat)
    (expiry : CacheExpiry) : Dir :=
  set_expiry_for_path (fsWrite fs resource content) (metaName resource) expiry

/-- The body of the `while let` loop of `CacheManager::clear_cache_pattern`,
over the enumerated names: a matching entry is removed (an absent file makes
`fs::remove_file` fail, a hard `RemoveError` that aborts the batch) and its
`.expiry` sibling is removed best-effort. -/
def clearLoop (rgx : String → Bool) : List String → Dir → Dir × Outcome CacheError Unit
  | [], fs => (fs, Outcome.ok ())
  | n :: rest, fs =>
    if rgx n then
      match fsRead fs n with
      | none => (fs, Outcome.err CacheError.RemoveError)
      | some _ => clearLoop rgx rest (fsRemove (fsRemove fs n) (metaName n))
    else clearLoop rgx rest fs

/-- `CacheManager::clear_cache_pattern`: run the removal loop over the
directory entries. -/
def clear_cache_pattern (rgx : String → Bool) (fs : Dir) : Dir × Outcome CacheError Unit :=
  clearLoop rgx (dirNames fs) fs

/-- Does a directory entry name match in `set_expired_pattern`: its name
with the `.expiry` suffix stripped matches the pattern (names without the
suffix never match)? -/
def metaMatches (rgx : String → Bool) (n : String) : Bool :=
  match dropSuffixOf n expiryFileExt with
  | some stem => rgx stem
  | none => false

/-- The loop of `CacheManager::set_expired_pattern`: every matching metadata
file is rewritten with `expire_in_seconds(0, None)`. -/
def setExpiredLoop (rgx : String → Bool) (now : Duration) :
    List String → Dir → Dir
  | [], fs => fs
  | n :: rest, fs =>
    if metaMatches rgx n then
      setExpiredLoop rgx now rest
        (set_expiry_for_path fs n (CacheExpiry.expire_in_seconds now 0 none))
    else setExpiredLoop rgx now rest fs

/-- `CacheManager::set_expired_pattern`: run the rewrite loop over the
directory entries (the writes cannot fail in this model, so the result is
always `Ok`). -/
def set_expired_pattern (rgx : String → Bool) (now : Duration) (fs : Dir) :
    Dir × Outcome CacheError Unit :=
  (setExpiredLoop rgx now (dirNames fs) fs, Outcome.ok ())

/-- `CacheManager::get_or_write`: read under the policy; `Fresh` returns the
bytes without consulting `fetch`; `Expired` invokes `fetch` with the stored
token, persisting only metadata on `NotModified` and rewriting both files on
`Modified`; `None` invokes `fetch` with no token, failing with `NoContent`
on `NotModified`.  Returns the final directory alongside the result. -/
def get_or_write {E : Type} (fromC : CacheError → E) (fs : Dir) (now : Duration)
    (resource : String) (policy : CachePolicy)
    (fetch : Option ETag → Except E FetchResult) : Dir × Outcome E (List Nat) :=
  match read_cache_file fs now resource policy with
  | Outcome.panic => (fs, Outcome.panic)
  | Outcome.err e => (fs, Outcome.err (fromC e))
  | Outcome.ok (CacheFile.Fresh buf) => (fs, Outcome.ok buf)
  | Outcome.ok (CacheFile.Expired buf etag) =>
    match fetch etag with
    | Except.error e => (fs, Outcome.err e)
    | Except.ok (FetchResult.NotModified expiry) =>
        (set_expiry_for_path fs (metaName resource) expiry, Outcome.ok buf)
    | Except.ok (FetchResult.Modified fresh expiry) =>
        (write_cache_file fs resource fresh expiry, Outcome.ok fresh)
  | Outcome.ok CacheFile.None =>
    match fetch none with
    | Except.error e => (fs, Outcome.err e)
    | Except.ok (FetchResult.NotModified _) =>
        (fs, Outcome.err (fromC CacheError.NoContent))
    | Except.ok (FetchResult.Modified fresh expiry) =>
        (write_cache_file fs resource fresh expiry, Outcome.ok fresh)

/-! ## Helper lemmas about the directory model and the codec -/

theorem fsRead_fsWrite_self (fs : Dir) (n : String) (b : List Nat) :
    fsRead (fsWrite fs n b) n = some b := by
  induction fs with
  | nil => simp [fsWrite, fsRead]
  | cons e rest ih =>
    by_cases h : e.1 = n
    · simp [fsWrite, fsRead, h]
    · simp only [fsWrite, fsRead]
      rw [if_neg h, fsRead, if_neg h]
      exact ih

theorem fsRead_fsWrite_ne (fs : Dir) (n m : String) (b : List Nat) (h : m ≠ n) :
    fsRead (fsWrite fs n b) m = fsRead fs m := by
  induction fs with
  | nil => simp [fsWrite, fsRead, Ne.symm h]
  | cons e rest ih =>
    by_cases he : e.1 = n
    · simp only [fsWrite, if_pos he, fsRead, he]
      rw [if_neg (Ne.symm h), if_neg (Ne.symm h)]
    · simp only [fsWrite, if_neg he, fsRead]
      by_cases hm : e.1 = m
      · rw [if_pos hm, if_pos hm]
      · rw [if_neg hm, if_neg hm]
        exact ih

theorem fsRead_fsRemove_self (fs : Dir) (n : String) :
    fsRead (fsRemove fs n) n = none := by
  induction fs with
  | nil => simp [fsRemove, fsRead]
  | cons e rest ih =>
    match e with
    | (k, v) =>
      by_cases h : k = n
      · simpa [fsRemove, h] using ih
      · simpa [fsRemove, fsRead, h] using ih

theorem fsRead_fsRemove_ne (fs : Dir) (n m : String) (h : m ≠ n) :
    fsRead (fsRemove fs n) m = fsRead fs m := by
  induction fs with
  | nil => simp [fsRemove]
  | cons e rest ih =>
    match e with
    | (k, v) =>
      by_cases he : k = n
      · rw [fsRemove, if_pos he, ih, fsRead, if_neg (he ▸ Ne.symm h)]
      · rw [fsRemove, if_neg he, fsRead, fsRead]
        by_cases hm : k = m
        · rw [if_pos hm, if_pos hm]
        · rw [if_neg hm, if_neg hm]
          exact ih

theorem length_beBytes8 (n : Nat) : (beBytes8 n).length = 8 := by
  simp [beBytes8]

theorem take8_beBytes8_append (n : Nat) (t : List Nat) :
    ((beBytes8 n ++ t).take 8) = beBytes8 n :=
  List.take_left' (length_beBytes8 n)

theorem drop8_beBytes8_append (n : Nat) (t : List Nat) :
    ((beBytes8 n ++ t).drop 8) = t :=
  List.drop_left' (length_beBytes8 n)

theorem fromBE8_beBytes8 (n : Nat) (h : n < 2 ^ 64) : fromBE8 (beBytes8 n) = n := by
  simp only [fromBE8, beBytes8, List.foldl]
  omega

theorem length_expiryFileExt : expiryFileExt.length = 7 := by decide

theorem metaName_ne_self (k : String) : metaName k ≠ k := by
  intro h
  have hlen : (metaName k).length = k.length + 7 := by
    simp [metaName, String.length_append, length_expiryFileExt]
  rw [h] at hlen
  omega

theorem dropSuffixOf_metaName (k : String) :
    dropSuffixOf (metaName k) expiryFileExt = some k := by
  have hdata : (metaName k).data = k.data ++ expiryFileExt.data := by
    simp [metaName]
  simp only [dropSuffixOf, hdata, List.reverse_append]
  rw [List.take_left' rfl, if_pos rfl, List.drop_left' rfl, List.reverse_reverse]

theorem metaMatches_metaName (rgx : String → Bool) (k : String) :
    metaMatches rgx (metaName k) = rgx k := by
  simp [metaMatches, dropSuffixOf_metaName]

theorem read_expiry_decodes (fs : Dir) (key : String)
    (hmeta : fsRead fs (metaName key) = none ∨
      ∃ b, fsRead fs (metaName key) = some b ∧ 8 ≤ b.length) :
    read_expiry_file fs key = Outcome.ok (decodedExpiry fs key) := by
  rcases hmeta with h | ⟨b, hb, hlen⟩
  · simp [read_expiry_file, decodedExpiry, h]
  · simp [read_expiry_file, decodedExpiry, hb, decodeExpiry, Nat.not_lt.mpr hlen]

theorem decodeExpiry_encode (d : Duration) (etag : Option ETag) :
    decodeExpiry (beBytes8 d.secs ++ (match etag with | some t => t | none => [])) =
      Outcome.ok (CacheExpiry.AtUnixTimestamp ⟨fromBE8 (beBytes8 d.secs), 0⟩
        (fromUtf8Opt (match etag with | some t => t | none => []))) := by
  have hlen : ¬ ((beBytes8 d.secs ++
      (match etag with | some t => t | none => [])).length < 8) := by
    rw [List.length_append, length_beBytes8]
    omega
  simp only [decodeExpiry, if_neg hlen, take8_beBytes8_append, drop8_beBytes8_append]

/-! ## Claim theorems -/

/-- C1: for every policy and every content state (absent,
present-and-not-expired, present-and-expired), `read_cache_file` returns
exactly the classification of the policy table: `IgnoreCached` always
returns `None`; `IgnoreExpiry` returns `Fresh` whenever content is present;
`Revalidate` returns `Expired` with the stored token whenever content is
present; `Default` returns `Fresh` when the stored expiry is not expired and
`Expired` with the stored token when it is; and every policy returns `None`
when the content file is absent.  (The stored metadata is assumed absent or
at least 8 bytes long; shorter metadata panics, see C10.) -/
theorem c1_policy_table (fs : Dir) (now : Duration) (key : String)
    (hmeta : fsRead fs (metaName key) = none ∨
      ∃ b, fsRead fs (metaName key) = some b ∧ 8 ≤ b.length) :
    read_cache_file fs now key CachePolicy.IgnoreCached = Outcome.ok CacheFile.None ∧
    (fsRead fs key = none →
      ∀ p, read_cache_file fs now key p = Outcome.ok CacheFile.None) ∧
    (∀ buf, fsRead fs key = some buf →
      read_cache_file fs now key CachePolicy.IgnoreExpiry =
        Outcome.ok (CacheFile.Fresh buf)) ∧
    (∀ buf, fsRead fs key = some buf →
      read_cache_file fs now key CachePolicy.Revalidate =
        Outcome.ok (CacheFile.Expired buf (decodedExpiry fs key).etag)) ∧
    (∀ buf, fsRead fs key = some buf → (decodedExpiry fs key).is_expired now = false →
      read_cache_file fs now key CachePolicy.Default =
        Outcome.ok (CacheFile.Fresh buf)) ∧
    (∀ buf, fsRead fs key = some buf → (decodedExpiry fs key).is_expired now = true →
      read_cache_file fs now key CachePolicy.Default =
        Outcome.ok (CacheFile.Expired buf (decodedExpiry fs key).etag)) := by
  have hE : read_expiry_file fs key = Outcome.ok (decodedExpiry fs key) :=
    read_expiry_decodes fs key hmeta
  refine ⟨?_, ?_, ?_, ?_, ?_, ?_⟩
  · simp [read_cache_file]
  · intro hnone p
    cases p <;> simp [read_cache_file, hE, hnone]
  · intro buf hbuf
    simp [read_cache_file, hE, hbuf]
  · intro buf hbuf
    simp [read_cache_file, hE, hbuf]
  · intro buf hbuf hfresh
    simp [read_cache_file, hE, hbuf, hfresh]
  · intro buf hbuf hstale
    simp [read_cache_file, hE, hbuf, hstale]

/-- C1 witness: a concrete expired entry with token `[116]` ("t"). -/
theorem c1_policy_table_witness :
    read_cache_file [("k", [1]), ("k.expiry", beBytes8 3 ++ [116])] ⟨5, 0⟩ "k"
      CachePolicy.IgnoreCached = Outcome.ok CacheFile.None ∧
    read_cache_file [("k", [1]), ("k.expiry", beBytes8 3 ++ [116])] ⟨5, 0⟩ "k"
      CachePolicy.Default = Outcome.ok (CacheFile.Expired [1] (some [116])) := by
  refine ⟨(c1_policy_table [("k", [1]), ("k.expiry", beBytes8 3 ++ [116])] ⟨5, 0⟩ "k"
    (Or.inr ⟨beBytes8 3 ++ [116], by decide, by decide⟩)).1, ?_⟩
  decide

/-- C10: a metadata file shorter than 8 bytes makes the decode in
`read_expiry_file` panic (out-of-bounds slice for `buffer[..8]`), and
therefore any `read_cache_file` call that consults metadata (every policy
except `IgnoreCached`) panics instead of returning a `CacheError`. -/
theorem c10_short_metadata_panics (fs : Dir) (now : Duration) (key : String) (b : List Nat)
    (hb : fsRead fs (metaName key) = some b) (hlen : b.length < 8) :
    read_expiry_file fs key = Outcome.panic ∧
    ∀ p, p ≠ CachePolicy.IgnoreCached → read_cache_file fs now key p = Outcome.panic := by
  have hE : read_expiry_file fs key = Outcome.panic := by
    simp [read_expiry_file, hb, decodeExpiry, hlen]
  refine ⟨hE, ?_⟩
  intro p hp
  cases p with
  | IgnoreCached => exact absurd rfl hp
  | Default => simp [read_cache_file, hE]
  | IgnoreExpiry => simp [read_cache_file, hE]
  | Revalidate => simp [read_cache_file, hE]

/-- C10 witness: a 3-byte metadata file panics the read paths. -/
theorem c10_short_metadata_panics_witness :
    read_expiry_file [("k.expiry", [0, 0, 0]), ("k", [7])] "k" = Outcome.panic ∧
    read_cache_file [("k.expiry", [0, 0, 0]), ("k", [7])] ⟨0, 0⟩ "k"
      CachePolicy.IgnoreExpiry = Outcome.panic := by
  have h := c10_short_metadata_panics [("k.expiry", [0, 0, 0]), ("k", [7])] ⟨0, 0⟩ "k"
    [0, 0, 0] (by decide) (by decide)
  exact ⟨h.1, h.2 CachePolicy.IgnoreExpiry (by decide)⟩

/-- C2: `get_or_write` forwards exactly the stored revalidation token to the
fetch callback: on a `Fresh` classification the bytes are returned and the
result does not depend on `fetch` at all; on `Expired(buf, tok)` the
callback is invoked with `tok`; on `None` it is invoked with `none`. -/
theorem c2_token_forwarding {E : Type} (fromC : CacheError → E) (fs : Dir) (now : Duration)
    (key : String) (policy : CachePolicy) :
    (∀ buf, read_cache_file fs now key policy = Outcome.ok (CacheFile.Fresh buf) →
      ∀ fetch : Option ETag → Except E FetchResult,
        get_or_write fromC fs now key policy fetch = (fs, Outcome.ok buf)) ∧
    (∀ buf tok, read_cache_file fs now key policy = Outcome.ok (CacheFile.Expired buf tok) →
      ∀ g : Option ETag → E,
        get_or_write fromC fs now key policy (fun t => Except.error (g t)) =
          (fs, Outcome.err (g tok))) ∧
    (read_cache_file fs now key policy = Outcome.ok CacheFile.None →
      ∀ g : Option ETag → E,
        get_or_write fromC fs now key policy (fun t => Except.error (g t)) =
          (fs, Outcome.err (g none))) := by
  refine ⟨?_, ?_, ?_⟩
  · intro buf h fetch
    simp [get_or_write, h]
  · intro buf tok h g
    simp [get_or_write, h]
  · intro h g
    simp [get_or_write, h]

/-- C2 witness: an expired entry stored with token `[116]`; the error-valued
callback observes exactly that token. -/
theorem c2_token_forwarding_witness :
    get_or_write (E := CacheError) id [("k", [7]), ("k.expiry", beBytes8 0 ++ [116])]
      ⟨1, 0⟩ "k" CachePolicy.Default
      (fun t => Except.error (if t = some [116] then CacheError.NoContent
        else CacheError.ReadError)) =
    ([("k", [7]), ("k.expiry", beBytes8 0 ++ [116])], Outcome.err CacheError.NoContent) := by
  have h := (c2_token_forwarding (E := CacheError) id
    [("k", [7]), ("k.expiry", beBytes8 0 ++ [116])] ⟨1, 0⟩ "k" CachePolicy.Default).2.1
    [7] (some [116]) (by decide)
    (fun t => if t = some [116] then CacheError.NoContent else CacheError.ReadError)
  simpa using h

/-- C5: with nothing cached (the read classifies `None`), a fetch reporting
`NotModified` fails with `NoContent` and the directory is unchanged: no
content or metadata file is created or modified. -/
theorem c5_no_content {E : Type} (fromC : CacheError → E) (fs : Dir) (now : Duration)
    (key : String) (policy : CachePolicy) (fetch : Option ETag → Except E FetchResult)
    (e : CacheExpiry)
    (hread : read_cache_file fs now key policy = Outcome.ok CacheFile.None)
    (hfetch : fetch none = Except.ok (FetchResult.NotModified e)) :
    get_or_write fromC fs now key policy fetch =
      (fs, Outcome.err (fromC CacheError.NoContent)) := by
  simp [get_or_write, hread, hfetch]

/-- C5 witness: empty cache, `NotModified` stub. -/
theorem c5_no_content_witness :
    get_or_write (E := CacheError) id [] ⟨0, 0⟩ "k" CachePolicy.Default
      (fun _ => Except.ok (FetchResult.NotModified CacheExpiry.Never)) =
    ([], Outcome.err CacheError.NoContent) :=
  c5_no_content (E := CacheError) id [] ⟨0, 0⟩ "k" CachePolicy.Default
    (fun _ => Except.ok (FetchResult.NotModified CacheExpiry.Never)) CacheExpiry.Never
    (by decide) rfl

/-- C3 counterexample: encoding `AtUnixTimestamp(⟨0 s, 1 ns⟩, none)` and
decoding it back yields `AtUnixTimestamp(⟨0 s, 0 ns⟩, some "")`: the
sub-second part of the instant is truncated and an absent token is read
back as the empty token, so the round trip is not the identity. -/
theorem c3_roundtrip_cx :
    read_expiry_file (set_expiry_for_path [] (metaName "k")
        (CacheExpiry.AtUnixTimestamp ⟨0, 1⟩ none)) "k" =
      Outcome.ok (CacheExpiry.AtUnixTimestamp ⟨0, 0⟩ (some [])) ∧
    CacheExpiry.AtUnixTimestamp ⟨0, 0⟩ (some []) ≠
      CacheExpiry.AtUnixTimestamp ⟨0, 1⟩ none := by
  decide

/-- C3 amended: for an integral-second instant and a present token (any
valid UTF-8 byte sequence, including the empty and multi-byte ones) the
codec round trip reconstructs the identical value; encoding with an absent
token decodes to `some ""`; and encoding `Never` produces no file, so with
no prior metadata file reading it back yields `Never`. -/
theorem c3_roundtrip_amended (fs : Dir) (key : String) (s : Nat) (tok : List Nat)
    (hs : s < 2 ^ 64) (htok : isValidUtf8 tok = true) :
    read_expiry_file (set_expiry_for_path fs (metaName key)
        (CacheExpiry.AtUnixTimestamp ⟨s, 0⟩ (some tok))) key =
      Outcome.ok (CacheExpiry.AtUnixTimestamp ⟨s, 0⟩ (some tok)) ∧
    read_expiry_file (set_expiry_for_path fs (metaName key)
        (CacheExpiry.AtUnixTimestamp ⟨s, 0⟩ none)) key =
      Outcome.ok (CacheExpiry.AtUnixTimestamp ⟨s, 0⟩ (some [])) ∧
    (fsRead fs (metaName key) = none →
      read_expiry_file (set_expiry_for_path fs (metaName key) CacheExpiry.Never) key =
        Outcome.ok CacheExpiry.Never) := by
  refine ⟨?_, ?_, ?_⟩
  · simp only [set_expiry_for_path, read_expiry_file, fsRead_fsWrite_self]
    rw [decodeExpiry_encode ⟨s, 0⟩ (some tok)]
    simp [fromBE8_beBytes8 s hs, fromUtf8Opt, htok]
  · simp only [set_expiry_for_path, read_expiry_file, fsRead_fsWrite_self]
    rw [decodeExpiry_encode ⟨s, 0⟩ none]
    have h0 : fromUtf8Opt [] = some [] := by decide
    simp [fromBE8_beBytes8 s hs, h0]
  · intro h
    simp [set_expiry_for_path, read_expiry_file, h]

/-- C3 witness: instant 3 s with the multi-byte UTF-8 token `"é"`
(`[0xC3, 0xA9]`) round-trips. -/
theorem c3_roundtrip_amended_witness :
    read_expiry_file (set_expiry_for_path [] (metaName "k")
        (CacheExpiry.AtUnixTimestamp ⟨3, 0⟩ (some [195, 169]))) "k" =
      Outcome.ok (CacheExpiry.AtUnixTimestamp ⟨3, 0⟩ (some [195, 169])) :=
  (c3_roundtrip_amended [] "k" 3 [195, 169] (by decide) (by decide)).1

/-- C7 counterexample: a metadata file whose token bytes `[0xFF]` are not
valid UTF-8 decodes to `Ok` with the token silently dropped, and the
`Default`-policy read succeeds; no `ConversionError` reaches the caller. -/
theorem c7_conversion_cx :
    read_expiry_file [("k", [7]), ("k.expiry", [0, 0, 0, 0, 0, 0, 0, 0, 255])] "k" =
      Outcome.ok (CacheExpiry.AtUnixTimestamp ⟨0, 0⟩ none) ∧
    read_cache_file [("k", [7]), ("k.expiry", [0, 0, 0, 0, 0, 0, 0, 0, 255])] ⟨0, 0⟩ "k"
      CachePolicy.Default = Outcome.ok (CacheFile.Fresh [7]) ∧
    read_cache_file [("k", [7]), ("k.expiry", [0, 0, 0, 0, 0, 0, 0, 0, 255])] ⟨0, 0⟩ "k"
      CachePolicy.Default ≠ Outcome.err CacheError.ConversionError := by
  decide

/-- C7 amended: when the token bytes of a stored metadata file are not
valid UTF-8, `read_expiry_file` (and hence `read_cache_file`) silently
treats the token as absent — `String::from_utf8(..).ok()` — and no
`ConversionError` is produced. -/
theorem c7_invalid_token_dropped (fs : Dir) (key : String) (b : List Nat)
    (hb : fsRead fs (metaName key) = some b) (hlen : 8 ≤ b.length)
    (hbad : isValidUtf8 (b.drop 8) = false) :
    read_expiry_file fs key =
      Outcome.ok (CacheExpiry.AtUnixTimestamp ⟨fromBE8 (b.take 8), 0⟩ none) := by
  simp [read_expiry_file, hb, decodeExpiry, Nat.not_lt.mpr hlen, fromUtf8Opt, hbad]

/-- C7 witness: token bytes `[0xFF]` are dropped. -/
theorem c7_invalid_token_dropped_witness :
    read_expiry_file [("k.expiry", [0, 0, 0, 0, 0, 0, 0, 2, 255])] "k" =
      Outcome.ok (CacheExpiry.AtUnixTimestamp ⟨2, 0⟩ none) := by
  have h := c7_invalid_token_dropped [("k.expiry", [0, 0, 0, 0, 0, 0, 0, 2, 255])] "k"
    [0, 0, 0, 0, 0, 0, 0, 2, 255] (by decide) (by decide) (by decide)
  simpa using h

/-- C4 counterexample: with an entry cached under token `[116]` and a fetch
stub returning `NotModified(AtUnixTimestamp(⟨5 s⟩, none))`, `get_or_write`
returns the stored bytes, but the subsequent metadata read observes
`AtUnixTimestamp(⟨5 s⟩, some "")`, not the `new_expiry` value
`AtUnixTimestamp(⟨5 s⟩, none)` the claim promises. -/
theorem c4_notmodified_cx :
    (get_or_write (E := CacheError) id [("k", [7]), ("k.expiry", beBytes8 0 ++ [116])]
        ⟨1, 0⟩ "k" CachePolicy.Default
        (fun _ => Except.ok (FetchResult.NotModified
          (CacheExpiry.AtUnixTimestamp ⟨5, 0⟩ none)))).2 = Outcome.ok [7] ∧
    read_expiry_file (get_or_write (E := CacheError) id
        [("k", [7]), ("k.expiry", beBytes8 0 ++ [116])] ⟨1, 0⟩ "k" CachePolicy.Default
        (fun _ => Except.ok (FetchResult.NotModified
          (CacheExpiry.AtUnixTimestamp ⟨5, 0⟩ none)))).1 "k" =
      Outcome.ok (CacheExpiry.AtUnixTimestamp ⟨5, 0⟩ (some [])) ∧
    CacheExpiry.AtUnixTimestamp ⟨5, 0⟩ (some []) ≠
      CacheExpiry.AtUnixTimestamp ⟨5, 0⟩ none := by
  decide

/-- C4 amended: on an `Expired(buf, tok)` classification with
`fetch tok = NotModified(new_expiry)`, `get_or_write` returns `buf`
unchanged, the content file (and every file other than the key's metadata
file) is untouched, and the metadata file afterwards holds exactly the
encoding of `new_expiry` when it is `AtUnixTimestamp` — so a decoded read
sees the truncated instant and the token, with an absent token read back as
`some ""` — while a `Never` `new_expiry` writes nothing, leaving the old
metadata in place. -/
theorem c4_notmodified_preserves {E : Type} (fromC : CacheError → E) (fs : Dir)
    (now : Duration) (key : String) (policy : CachePolicy)
    (fetch : Option ETag → Except E FetchResult) (buf : List Nat) (tok : Option ETag)
    (newExp : CacheExpiry)
    (hread : read_cache_file fs now key policy = Outcome.ok (CacheFile.Expired buf tok))
    (hfetch : fetch tok = Except.ok (FetchResult.NotModified newExp)) :
    get_or_write fromC fs now key policy fetch =
      (set_expiry_for_path fs (metaName key) newExp, Outcome.ok buf) ∧
    fsRead (set_expiry_for_path fs (metaName key) newExp) key = fsRead fs key ∧
    (∀ n, n ≠ metaName key →
      fsRead (set_expiry_for_path fs (metaName key) newExp) n = fsRead fs n) ∧
    (∀ d tk, newExp = CacheExpiry.AtUnixTimestamp d tk →
      fsRead (set_expiry_for_path fs (metaName key) newExp) (metaName key) =
        some (beBytes8 d.secs ++ (match tk with | some t => t | none => []))) ∧
    (newExp = CacheExpiry.Never →
      set_expiry_for_path fs (metaName key) newExp = fs) := by
  have hframe : ∀ n, n ≠ metaName key →
      fsRead (set_expiry_for_path fs (metaName key) newExp) n = fsRead fs n := by
    intro n hn
    cases newExp with
    | Never => rfl
    | AtUnixTimestamp d tk => exact fsRead_fsWrite_ne fs (metaName key) n _ hn
  refine ⟨?_, hframe key (Ne.symm (metaName_ne_self key)), hframe, ?_, ?_⟩
  · simp [get_or_write, hread, hfetch]
  · intro d tk h
    subst h
    simp [set_expiry_for_path, fsRead_fsWrite_self]
  · intro h
    subst h
    rfl

/-- C4 witness: the concrete `NotModified` refresh; the returned bytes are
the stored ones and the metadata file holds the new encoding. -/
theorem c4_notmodified_preserves_witness :
    get_or_write (E := CacheError) id [("k", [7]), ("k.expiry", beBytes8 0 ++ [116])]
      ⟨1, 0⟩ "k" CachePolicy.Default
      (fun _ => Except.ok (FetchResult.NotModified
        (CacheExpiry.AtUnixTimestamp ⟨5, 0⟩ (some [104])))) =
    (set_expiry_for_path [("k", [7]), ("k.expiry", beBytes8 0 ++ [116])] (metaName "k")
      (CacheExpiry.AtUnixTimestamp ⟨5, 0⟩ (some [104])), Outcome.ok [7]) :=
  (c4_notmodified_preserves (E := CacheError) id
    [("k", [7]), ("k.expiry", beBytes8 0 ++ [116])] ⟨1, 0⟩ "k" CachePolicy.Default
    (fun _ => Except.ok (FetchResult.NotModified
      (CacheExpiry.AtUnixTimestamp ⟨5, 0⟩ (some [104]))))
    [7] (some [116]) (CacheExpiry.AtUnixTimestamp ⟨5, 0⟩ (some [104]))
    (by decide) rfl).1

/-- C6 counterexample: writing with expiry `Never` over a key whose stale
metadata file exists leaves that metadata file present, not "entirely
absent" as the claim requires for every prior on-disk state. -/
theorem c6_write_cx :
    fsRead (write_cache_file [("k.expiry", [9, 9, 9, 9, 9, 9, 9, 9])] "k" [1]
        CacheExpiry.Never) (metaName "k") = some [9, 9, 9, 9, 9, 9, 9, 9] ∧
    fsRead (write_cache_file [("k.expiry", [9, 9, 9, 9, 9, 9, 9, 9])] "k" [1]
        CacheExpiry.Never) (metaName "k") ≠ none := by
  decide

/-- C6 amended: after `write_cache_file(key, bytes, expiry)` the content
file holds exactly `bytes`; for an `AtUnixTimestamp` expiry the metadata
file holds exactly its encoding; for `Never` the metadata file is left
exactly as it was (in particular, stale metadata from a prior write
survives); every other file is untouched. -/
theorem c6_write_replaces (fs : Dir) (key : String) (content : List Nat)
    (expiry : CacheExpiry) :
    fsRead (write_cache_file fs key content expiry) key = some content ∧
    (∀ d tk, expiry = CacheExpiry.AtUnixTimestamp d tk →
      fsRead (write_cache_file fs key content expiry) (metaName key) =
        some (beBytes8 d.secs ++ (match tk with | some t => t | none => []))) ∧
    (expiry = CacheExpiry.Never →
      fsRead (write_cache_file fs key content expiry) (metaName key) =
        fsRead fs (metaName key)) ∧
    (∀ n, n ≠ key → n ≠ metaName key →
      fsRead (write_cache_file fs key content expiry) n = fsRead fs n) := by
  refine ⟨?_, ?_, ?_, ?_⟩
  · cases expiry with
    | Never => simpa [write_cache_file, set_expiry_for_path] using
        fsRead_fsWrite_self fs key content
    | AtUnixTimestamp d tk =>
      simp only [write_cache_file, set_expiry_for_path]
      rw [fsRead_fsWrite_ne _ _ _ _ (Ne.symm (metaName_ne_self key))]
      exact fsRead_fsWrite_self fs key content
  · intro d tk h
    subst h
    simp [write_cache_file, set_expiry_for_path, fsRead_fsWrite_self]
  · intro h
    subst h
    simp only [write_cache_file, set_expiry_for_path]
    exact fsRead_fsWrite_ne _ _ _ _ (metaName_ne_self key)
  · intro n hn hm
    cases expiry with
    | Never =>
      simp only [write_cache_file, set_expiry_for_path]
      exact fsRead_fsWrite_ne _ _ _ _ hn
    | AtUnixTimestamp d tk =>
      simp only [write_cache_file, set_expiry_for_path]
      rw [fsRead_fsWrite_ne _ _ _ _ hm]
      exact fsRead_fsWrite_ne _ _ _ _ hn

/-- C6 witness: a write with a timestamped expiry replaces both halves over
a prior state. -/
theorem c6_write_replaces_witness :
    fsRead (write_cache_file [("k", [7]), ("k.expiry", [9, 9, 9, 9, 9, 9, 9, 9])] "k" [1]
        (CacheExpiry.AtUnixTimestamp ⟨2, 0⟩ (some [116]))) "k" = some [1] ∧
    fsRead (write_cache_file [("k", [7]), ("k.expiry", [9, 9, 9, 9, 9, 9, 9, 9])] "k" [1]
        (CacheExpiry.AtUnixTimestamp ⟨2, 0⟩ (some [116]))) (metaName "k") =
      some (beBytes8 2 ++ [116]) := by
  have h := c6_write_replaces [("k", [7]), ("k.expiry", [9, 9, 9, 9, 9, 9, 9, 9])] "k" [1]
    (CacheExpiry.AtUnixTimestamp ⟨2, 0⟩ (some [116]))
  exact ⟨h.1, h.2.1 ⟨2, 0⟩ (some [116]) rfl⟩

theorem fsRead_of_mem_dirNames (fs : Dir) (n : String) (h : n ∈ dirNames fs) :
    fsRead fs n ≠ none := by
  induction fs with
  | nil => simp [dirNames] at h
  | cons e rest ih =>
    match e with
    | (k, v) =>
      by_cases hk : k = n
      · simp [fsRead, hk]
      · rcases List.mem_cons.mp (show n ∈ k :: dirNames rest from h) with h1 | h2
        · exact absurd h1.symm hk
        · simp only [fsRead, if_neg hk]
          exact ih h2

theorem fsRead_fsRemove_none (fs : Dir) (n k : String) (h : fsRead fs k = none) :
    fsRead (fsRemove fs n) k = none := by
  by_cases hk : k = n
  · subst hk
    exact fsRead_fsRemove_self fs k
  · rw [fsRead_fsRemove_ne fs n k hk]
    exact h

theorem clearLoop_none (rgx : String → Bool) (names : List String) (fs : Dir) (k : String)
    (h : fsRead fs k = none) :
    fsRead (clearLoop rgx names fs).1 k = none := by
  induction names generalizing fs with
  | nil => simpa [clearLoop] using h
  | cons n rest ih =>
    by_cases hn : rgx n = true
    · cases hv : fsRead fs n with
      | none => simpa [clearLoop, hn, hv] using h
      | some v =>
        simp only [clearLoop, hn, hv, if_true]
        exact ih _ (fsRead_fsRemove_none _ _ _ (fsRead_fsRemove_none _ _ _ h))
    · simp only [clearLoop, if_neg hn]
      exact ih _ h

theorem clearLoop_frame (rgx : String → Bool) (names : List String) (fs : Dir) (k : String)
    (hk : rgx k = false) (hsib : ∀ m, rgx m = true → k ≠ metaName m) :
    fsRead (clearLoop rgx names fs).1 k = fsRead fs k := by
  induction names generalizing fs with
  | nil => simp [clearLoop]
  | cons n rest ih =>
    by_cases hn : rgx n = true
    · cases hv : fsRead fs n with
      | none => simp [clearLoop, hn, hv]
      | some v =>
        have hkn : k ≠ n := fun h => by simp [h, hn] at hk
        simp only [clearLoop, hn, hv, if_true]
        rw [ih, fsRead_fsRemove_ne _ _ _ (hsib n hn), fsRead_fsRemove_ne _ _ _ hkn]
    · simp only [clearLoop, if_neg hn]
      exact ih _

theorem clearLoop_ok (rgx : String → Bool) (names : List String) (fs : Dir)
    (hnd : names.Nodup)
    (hpres : ∀ n ∈ names, rgx n = true → fsRead fs n ≠ none)
    (hsib : ∀ n ∈ names, ∀ m ∈ names, rgx n = true → rgx m = true → n ≠ metaName m) :
    (clearLoop rgx names fs).2 = Outcome.ok () ∧
    ∀ n ∈ names, rgx n = true →
      fsRead (clearLoop rgx names fs).1 n = none ∧
      fsRead (clearLoop rgx names fs).1 (metaName n) = none := by
  induction names generalizing fs with
  | nil => exact ⟨rfl, by simp⟩
  | cons n rest ih =>
    rcases List.nodup_cons.mp hnd with ⟨hnmem, hndr⟩
    by_cases hn : rgx n = true
    · obtain ⟨v, hv⟩ : ∃ v, fsRead fs n = some v := by
        cases hv : fsRead fs n with
        | none => exact absurd hv (hpres n (by simp) hn)
        | some v => exact ⟨v, rfl⟩
      have hloop : clearLoop rgx (n :: rest) fs =
          clearLoop rgx rest (fsRemove (fsRemove fs n) (metaName n)) := by
        simp [clearLoop, hn, hv]
      have hpres2 : ∀ m ∈ rest, rgx m = true →
          fsRead (fsRemove (fsRemove fs n) (metaName n)) m ≠ none := by
        intro m hm hrm
        have hmn : m ≠ n := fun h => hnmem (h ▸ hm)
        have hmmeta : m ≠ metaName n :=
          hsib m (List.mem_cons_of_mem n hm) n (List.mem_cons_self n rest) hrm hn
        rw [fsRead_fsRemove_ne _ _ _ hmmeta, fsRead_fsRemove_ne _ _ _ hmn]
        exact hpres m (List.mem_cons_of_mem n hm) hrm
      have hsib2 : ∀ a ∈ rest, ∀ m ∈ rest, rgx a = true → rgx m = true →
          a ≠ metaName m :=
        fun a ha m hm h1 h2 =>
          hsib a (List.mem_cons_of_mem n ha) m (List.mem_cons_of_mem n hm) h1 h2
      have ihr := ih (fsRemove (fsRemove fs n) (metaName n)) hndr hpres2 hsib2
      refine ⟨by rw [hloop]; exact ihr.1, ?_⟩
      intro t ht hrt
      rcases List.mem_cons.mp ht with rfl | htr
      · constructor
        · rw [hloop]
          apply clearLoop_none
          rw [fsRead_fsRemove_ne _ _ _ (Ne.symm (metaName_ne_self t))]
          exact fsRead_fsRemove_self fs t
        · rw [hloop]
          apply clearLoop_none
          exact fsRead_fsRemove_self _ (metaName t)
      · rw [hloop]
        exact ihr.2 t htr hrt
    · have hloop : clearLoop rgx (n :: rest) fs = clearLoop rgx rest fs := by
        simp [clearLoop, hn]
      have hpres2 : ∀ m ∈ rest, rgx m = true → fsRead fs m ≠ none :=
        fun m hm => hpres m (List.mem_cons_of_mem n hm)
      have hsib2 : ∀ a ∈ rest, ∀ m ∈ rest, rgx a = true → rgx m = true →
          a ≠ metaName m :=
        fun a ha m hm h1 h2 =>
          hsib a (List.mem_cons_of_mem n ha) m (List.mem_cons_of_mem n hm) h1 h2
      have ihr := ih fs hndr hpres2 hsib2
      refine ⟨by rw [hloop]; exact ihr.1, ?_⟩
      intro t ht hrt
      rcases List.mem_cons.mp ht with rfl | htr
      · exact absurd hrt hn
      · rw [hloop]
        exact ihr.2 t htr hrt

/-- C8: `clear_cache_pattern` removes, for every directory entry whose
name matches, the entry's file and (best-effort, silently) its `.expiry`
sibling, and leaves every non-matching key's files untouched; a failed
removal of a matched file is a hard `RemoveError` that aborts the remaining
batch with the already-removed entries staying removed.  (The success case
assumes distinct entry names and that no matched entry is itself the
`.expiry` sibling of another matched entry.) -/
theorem c8_clear_pattern (rgx : String → Bool) (fs : Dir)
    (hnd : (dirNames fs).Nodup)
    (hsib : ∀ n ∈ dirNames fs, ∀ m ∈ dirNames fs, rgx n = true → rgx m = true →
      n ≠ metaName m) :
    (clear_cache_pattern rgx fs).2 = Outcome.ok () ∧
    (∀ n ∈ dirNames fs, rgx n = true →
      fsRead (clear_cache_pattern rgx fs).1 n = none ∧
      fsRead (clear_cache_pattern rgx fs).1 (metaName n) = none) ∧
    (∀ k, rgx k = false → (∀ m, rgx m = true → k ≠ metaName m) →
      fsRead (clear_cache_pattern rgx fs).1 k = fsRead fs k) ∧
    (∀ n rest fs2, rgx n = true → fsRead fs2 n = none →
      clearLoop rgx (n :: rest) fs2 = (fs2, Outcome.err CacheError.RemoveError)) := by
  have hpres : ∀ n ∈ dirNames fs, rgx n = true → fsRead fs n ≠ none :=
    fun n hn _ => fsRead_of_mem_dirNames fs n hn
  have h := clearLoop_ok rgx (dirNames fs) fs hnd hpres hsib
  simp only [clear_cache_pattern]
  refine ⟨h.1, h.2, ?_, ?_⟩
  · intro k hk hks
    exact clearLoop_frame rgx (dirNames fs) fs k hk hks
  · intro n rest fs2 hn hnone
    simp [clearLoop, hn, hnone]

/-- C8 witness: keys `a1` (with metadata) and `b1`; clearing the pattern
matching exactly `a1` removes `a1` and `a1.expiry` and leaves `b1`. -/
theorem c8_clear_pattern_witness :
    (clear_cache_pattern (fun s => decide (s = "a1"))
      [("a1", [1]), ("a1.expiry", [0, 0, 0, 0, 0, 0, 0, 0]), ("b1", [3])]).2 =
      Outcome.ok () ∧
    fsRead (clear_cache_pattern (fun s => decide (s = "a1"))
      [("a1", [1]), ("a1.expiry", [0, 0, 0, 0, 0, 0, 0, 0]), ("b1", [3])]).1 "a1" = none ∧
    fsRead (clear_cache_pattern (fun s => decide (s = "a1"))
      [("a1", [1]), ("a1.expiry", [0, 0, 0, 0, 0, 0, 0, 0]), ("b1", [3])]).1 "a1.expiry" =
      none ∧
    fsRead (clear_cache_pattern (fun s => decide (s = "a1"))
      [("a1", [1]), ("a1.expiry", [0, 0, 0, 0, 0, 0, 0, 0]), ("b1", [3])]).1 "b1" =
      some [3] := by
  have h := c8_clear_pattern (fun s => decide (s = "a1"))
    [("a1", [1]), ("a1.expiry", [0, 0, 0, 0, 0, 0, 0, 0]), ("b1", [3])]
    (by decide) (by decide)
  have hmn : metaName "a1" = "a1.expiry" := by decide
  refine ⟨h.1, (h.2.1 "a1" (by decide) (by decide)).1, ?_, ?_⟩
  · have h2 := (h.2.1 "a1" (by decide) (by decide)).2
    rwa [hmn] at h2
  · refine h.2.2.1 "b1" (by decide) ?_
    intro m hm
    have hme : m = "a1" := of_decide_eq_true hm
    subst hme
    rw [hmn]
    decide

theorem set_expired_write (fs : Dir) (n : String) (now : Duration) :
    set_expiry_for_path fs n (CacheExpiry.expire_in_seconds now 0 none) =
      fsWrite fs n (beBytes8 now.secs) := by
  simp [set_expiry_for_path, CacheExpiry.expire_in_seconds]

theorem setExpiredLoop_pres (rgx : String → Bool) (now : Duration) (names : List String)
    (fs : Dir) (k : String) (h : fsRead fs k = some (beBytes8 now.secs)) :
    fsRead (setExpiredLoop rgx now names fs) k = some (beBytes8 now.secs) := by
  induction names generalizing fs with
  | nil => simpa [setExpiredLoop] using h
  | cons a rest ih =>
    by_cases ha : metaMatches rgx a = true
    · simp only [setExpiredLoop, ha, if_true]
      rw [set_expired_write]
      apply ih
      by_cases hak : a = k
      · subst hak
        exact fsRead_fsWrite_self fs a _
      · rw [fsRead_fsWrite_ne _ _ _ _ (fun hh => hak hh.symm)]
        exact h
    · simp only [setExpiredLoop, if_neg ha]
      exact ih _ h

theorem setExpiredLoop_written (rgx : String → Bool) (now : Duration) (names : List String)
    (fs : Dir) (n : String) (hmem : n ∈ names) (hm : metaMatches rgx n = true) :
    fsRead (setExpiredLoop rgx now names fs) n = some (beBytes8 now.secs) := by
  induction names generalizing fs with
  | nil => simp at hmem
  | cons a rest ih =>
    rcases List.mem_cons.mp hmem with rfl | hmem2
    · simp only [setExpiredLoop, hm, if_true]
      rw [set_expired_write]
      exact setExpiredLoop_pres rgx now rest _ n (fsRead_fsWrite_self fs n _)
    · by_cases ha : metaMatches rgx a = true
      · simp only [setExpiredLoop, ha, if_true]
        exact ih _ hmem2
      · simp only [setExpiredLoop, if_neg ha]
        exact ih _ hmem2

theorem setExpiredLoop_frame (rgx : String → Bool) (now : Duration) (names : List String)
    (fs : Dir) (k : String) (hk : metaMatches rgx k = false) :
    fsRead (setExpiredLoop rgx now names fs) k = fsRead fs k := by
  induction names generalizing fs with
  | nil => simp [setExpiredLoop]
  | cons a rest ih =>
    by_cases ha : metaMatches rgx a = true
    · have hak : k ≠ a := fun h => by simp [h, ha] at hk
      simp only [setExpiredLoop, ha, if_true]
      rw [ih, set_expired_write, fsRead_fsWrite_ne _ _ _ _ hak]
    · simp only [setExpiredLoop, if_neg ha]
      exact ih _

theorem durLt_floor (a b : Duration) (h : durLt a b = true) :
    durLt ⟨a.secs, 0⟩ b = true := by
  simp only [durLt, Bool.or_eq_true, Bool.and_eq_true, decide_eq_true_eq] at h ⊢
  omega

theorem decodeExpiry_beBytes8 (s : Nat) :
    decodeExpiry (beBytes8 s) =
      Outcome.ok (CacheExpiry.AtUnixTimestamp ⟨fromBE8 (beBytes8 s), 0⟩ (some [])) := by
  have h := decodeExpiry_encode ⟨s, 0⟩ none
  have h0 : fromUtf8Opt [] = some [] := by decide
  simpa [h0] using h

/-- C9: `set_expired_pattern` leaves the content file of every matching key
intact, rewrites only the metadata files whose stem (name minus `.expiry`)
matches — setting each to the encoding of an expire-now, token-free expiry —
and a subsequent strictly later `Default`-policy read of such a key
classifies it `Expired`. -/
theorem c9_expire_pattern (rgx : String → Bool) (now nowR : Duration) (fs : Dir)
    (key : String) (buf : List Nat)
    (hcontent : fsRead fs key = some buf)
    (hkey : metaMatches rgx key = false)
    (hmeta : metaName key ∈ dirNames fs)
    (hrgx : rgx key = true)
    (hsecs : now.secs < 2 ^ 64)
    (hlater : durLt now nowR = true) :
    (set_expired_pattern rgx now fs).2 = Outcome.ok () ∧
    fsRead (set_expired_pattern rgx now fs).1 key = some buf ∧
    fsRead (set_expired_pattern rgx now fs).1 (metaName key) = some (beBytes8 now.secs) ∧
    (∀ n, metaMatches rgx n = false →
      fsRead (set_expired_pattern rgx now fs).1 n = fsRead fs n) ∧
    read_cache_file (set_expired_pattern rgx now fs).1 nowR key CachePolicy.Default =
      Outcome.ok (CacheFile.Expired buf (some [])) := by
  have hmm : metaMatches rgx (metaName key) = true := by
    rw [metaMatches_metaName]
    exact hrgx
  simp only [set_expired_pattern]
  have hw := setExpiredLoop_written rgx now (dirNames fs) fs (metaName key) hmeta hmm
  have hc : fsRead (setExpiredLoop rgx now (dirNames fs) fs) key = some buf := by
    rw [setExpiredLoop_frame rgx now (dirNames fs) fs key hkey]
    exact hcontent
  refine ⟨trivial, hc, hw, fun n hn => setExpiredLoop_frame rgx now (dirNames fs) fs n hn, ?_⟩
  have hE : read_expiry_file (setExpiredLoop rgx now (dirNames fs) fs) key =
      Outcome.ok (CacheExpiry.AtUnixTimestamp ⟨now.secs, 0⟩ (some [])) := by
    simp only [read_expiry_file, hw, decodeExpiry_beBytes8, fromBE8_beBytes8 now.secs hsecs]
  have hexp : (CacheExpiry.AtUnixTimestamp ⟨now.secs, 0⟩ (some [])).is_expired nowR = true := by
    simpa [CacheExpiry.is_expired] using durLt_floor now nowR hlater
  simp [read_cache_file, hE, hc, hexp, CacheExpiry.etag]

/-- C9 witness: key `a1` with a far-future token-carrying expiry is forced
stale at time 10 s; the read at 11 s classifies it `Expired` with the
content intact. -/
theorem c9_expire_pattern_witness :
    fsRead (set_expired_pattern (fun s => decide (s = "a1")) ⟨10, 5⟩
      [("a1", [1]), ("a1.expiry", beBytes8 99 ++ [116])]).1 "a1" = some [1] ∧
    read_cache_file (set_expired_pattern (fun s => decide (s = "a1")) ⟨10, 5⟩
      [("a1", [1]), ("a1.expiry", beBytes8 99 ++ [116])]).1 ⟨11, 0⟩ "a1"
      CachePolicy.Default = Outcome.ok (CacheFile.Expired [1] (some [])) := by
  have h := c9_expire_pattern (fun s => decide (s = "a1")) ⟨10, 5⟩ ⟨11, 0⟩
    [("a1", [1]), ("a1.expiry", beBytes8 99 ++ [116])] "a1" [1]
    (by decide) (by decide) (by decide) (by decide) (by decide) (by decide)
  exact ⟨h.2.1, h.2.2.2.2⟩
